import Mathlib

/-! The line store behind the hosts-file editor `hosts_cli`.

A shallow embedding of `main.go`.  Go strings are byte sequences, the
`hostlist` methods, which mutate their receiver, become functions that
return the receiver after the call next to the Go results, and a Go
`error` is an optional message (`none` is `nil`).

The address parser `net.ParseIP` belongs to the Go standard library and is
not part of the program, so every operation that calls it takes it as the
parameter `ParseIP`; the theorems hold for every parser.
-/

namespace HostsCli

/-! ## Strings -/

/-- A Go string: an immutable sequence of bytes. -/
abbrev Str := List UInt8

/-- The bytes of an ASCII literal. -/
def ascii (s : String) : Str := s.toList.map (fun c => UInt8.ofNat c.toNat)

/-- The byte `'\t'`. -/
abbrev tab : UInt8 := 9

/-- The byte `'\n'`. -/
abbrev newline : UInt8 := 10

/-- The byte `'#'`. -/
abbrev hash : UInt8 := 35

/-- The byte `'.'`. -/
abbrev dot : UInt8 := 46

namespace strings

/-- Go `strings.Contains(s, substr)`: whether `substr` occurs in `s` as a
contiguous run of bytes (the empty string occurs in every string). -/
def Contains (s substr : Str) : Bool :=
  match s with
  | [] => substr.isPrefixOf []
  | c :: cs => substr.isPrefixOf (c :: cs) || Contains cs substr

/-- Go `strings.Split(s, sep)` for a one-byte separator, which is how the
program calls it: the pieces of `s` between the occurrences of `sep`; a
string without `sep` (the empty one too) gives one piece. -/
def Split (s : Str) (sep : UInt8) : List Str :=
  match s with
  | [] => [[]]
  | c :: cs =>
    if c = sep then [] :: Split cs sep
    else
      match Split cs sep with
      | [] => [[c]]
      | piece :: pieces => (c :: piece) :: pieces

/-- Go `strings.Join(elems, sep)`. -/
def Join (elems : List Str) (sep : Str) : Str :=
  match elems with
  | [] => []
  | [e] => e
  | e :: f :: rest => e ++ sep ++ Join (f :: rest) sep

/-- Go `strings.TrimLeft(s, cutset)` for a cutset of ASCII bytes: `s` without
its longest leading run of bytes that belong to `cutset`. -/
def TrimLeft (s cutset : Str) : Str :=
  s.dropWhile (fun c => cutset.elem c)

end strings

/-- The result of `fmt.Sprintf("%s\t%s", ip, hostname)`. -/
def entryLine (ip hostname : Str) : Str := ip ++ [tab] ++ hostname

/-- The message of
`fmt.Errorf("neither %s or %s is a valid IP address", a, b)`. -/
def neitherValid (a b : Str) : Str :=
  ascii "neither " ++ a ++ ascii " or " ++ b ++ ascii " is a valid IP address"

/-! ## Helpers of `main.go` -/

/-- Source `containsPart`: the needle occurs right after a tab or right before
a tab. -/
def containsPart (haystack needle : Str) : Bool :=
  strings.Contains haystack ([tab] ++ needle) || strings.Contains haystack (needle ++ [tab])

/-- One pass of the loop body of `reverse`: `a[i], a[opp] = a[opp], a[i]`
with `opp := len(a) - 1 - i`. -/
def reverseStep (a : List Nat) (i : Nat) : List Nat :=
  let opp := a.length - 1 - i
  (a.set i (a.getD opp 0)).set opp (a.getD i 0)

/-- Source `reverse`: the loop `for i := len(a)/2 - 1; i >= 0; i--` swaps
`a[i]` with its opposite element. -/
def reverse (a : List Nat) : List Nat :=
  (List.range (a.length / 2)).reverse.foldl reverseStep a

/-! ## The line store -/

/-- A Go `net.IP`: a byte slice. -/
abbrev IP := List UInt8

/-- Source `hostlist`. -/
structure hostlist where
  lines : List Str
  changed : Bool
deriving DecidableEq, Repr

namespace hostlist

/-- Source `Parse`. -/
def Parse (hl : hostlist) (b : Str) : hostlist :=
  { hl with lines := strings.Split b newline }

/-- Source `Bytes`. -/
def Bytes (hl : hostlist) : Str :=
  strings.Join hl.lines [newline]

/-- The loop of `Contains`: `for _, line := range hl.lines`, returning at the
first line equal to `target`. -/
def scan (target : Str) : List Str → Bool
  | [] => false
  | line :: rest => if line = target then true else scan target rest

/-- The address and the hostname that `Contains` and `Add` hand to
`Sprintf`: both variables start as the empty string and are assigned only
when `a` does not parse. -/
def resolve (ParseIP : Str → Option IP) (a b : Str) : Str × Str :=
  if (ParseIP a).isNone then (b, a) else ([], [])

/-- Source `Contains`: the receiver after the call, the boolean and the
error. -/
def Contains (ParseIP : Str → Option IP) (hl : hostlist) (a b : Str) :
    hostlist × Bool × Option Str :=
  if (ParseIP a).isNone && (ParseIP b).isNone then
    (hl, false, some (neitherValid a b))
  else
    let (ip, hostname) := resolve ParseIP a b
    (hl, scan (entryLine ip hostname) hl.lines, none)

/-- Source `Add`: the receiver after the call and the error. -/
def Add (ParseIP : Str → Option IP) (hl : hostlist) (a b : Str) :
    hostlist × Option Str :=
  if (ParseIP a).isNone && (ParseIP b).isNone then
    (hl, some (neitherValid a b))
  else
    let (ip, hostname) := resolve ParseIP a b
    ({ lines := hl.lines ++ [entryLine ip hostname], changed := true }, none)

/-- The first loop of `Remove`: `for i, line := range hl.lines` appends `i`
to `deletes` when the line matches. -/
def collect (thing : Str) : List Str → Nat → List Nat → List Nat
  | [], _, deletes => deletes
  | line :: rest, i, deletes =>
    collect thing rest (i + 1) (if containsPart line thing then deletes ++ [i] else deletes)

/-- The body of the second loop of `Remove`:
`append(hl.lines[:i], hl.lines[i+1:]...)`. -/
def deleteAt (lines : List Str) (i : Nat) : List Str :=
  lines.take i ++ lines.drop (i + 1)

/-- Source `Remove`. -/
def Remove (hl : hostlist) (thing : Str) : hostlist × Option Str :=
  let deletes := collect thing hl.lines 0 []
  ({ lines := (reverse deletes).foldl deleteAt hl.lines, changed := true }, none)

/-- The loop body of `Comment` at index `i`: `line` is `hl.lines[i]`, and a
matching line is overwritten in place by `"#" + line`. -/
def commentStep (thing : Str) (lines : List Str) (i : Nat) : List Str :=
  let line := lines.getD i []
  if containsPart line thing then lines.set i ([hash] ++ line) else lines

/-- Source `Comment`. -/
def Comment (hl : hostlist) (thing : Str) : hostlist × Option Str :=
  ({ lines := (List.range hl.lines.length).foldl (commentStep thing) hl.lines,
     changed := true }, none)

/-- The loop body of `Uncomment` at index `i`: a matching line is overwritten
in place by `strings.TrimLeft(line, "#")`. -/
def uncommentStep (thing : Str) (lines : List Str) (i : Nat) : List Str :=
  let line := lines.getD i []
  if containsPart line thing then lines.set i (strings.TrimLeft line [hash]) else lines

/-- Source `Uncomment`. -/
def Uncomment (hl : hostlist) (thing : Str) : hostlist × Option Str :=
  ({ lines := (List.range hl.lines.length).foldl (uncommentStep thing) hl.lines,
     changed := true }, none)

end hostlist

/-! ## The effect of the loops on one line -/

/-- What `Comment` does to one line. -/
def commentLine (thing line : Str) : Str :=
  if containsPart line thing then [hash] ++ line else line

/-- What `Uncomment` does to one line. -/
def uncommentLine (thing line : Str) : Str :=
  if containsPart line thing then strings.TrimLeft line [hash] else line

/-- The spec's "tab-delimited token": some occurrence of `thing` in `line` is
immediately preceded by a tab or immediately followed by a tab. -/
def DelimitedToken (thing line : Str) : Prop :=
  (∃ u v, line = u ++ ([tab] ++ thing) ++ v) ∨ (∃ u v, line = u ++ (thing ++ [tab]) ++ v)

/-- The store after `n` successive calls of `Comment(thing)`. -/
def commentTimes (thing : Str) : Nat → hostlist → hostlist
  | 0, hl => hl
  | n + 1, hl => commentTimes thing n (hl.Comment thing).1

/-! ## The program run

`main` talks to the outside world in four places: the privilege check, the
command line, the read of the hosts file and its write.  They are the fields
of `Env`; what a run does is an `Outcome`. -/

/-- Source `Read`: `file` is the result of `ioutil.ReadFile(fn)`, the error
or the bytes read. -/
def hostlist.Read (hl : hostlist) (file : Except Str Str) : hostlist × Option Str :=
  match file with
  | .error err => (hl, some err)
  | .ok b => (hl.Parse b, none)

/-- Source `Write`: `WriteFile` gives the error of `ioutil.WriteFile` for the
bytes handed to it. -/
def hostlist.Write (hl : hostlist) (WriteFile : Str → Option Str) : Option Str :=
  WriteFile hl.Bytes

/-- The surroundings of one run of `main`. -/
structure Env where
  /-- The result of `amIRoot()`. -/
  amIRoot : Bool
  /-- The command line `os.Args`, the program name first. -/
  Args : List Str
  /-- The result of `ioutil.ReadFile(filename)`. -/
  ReadFile : Except Str Str
  /-- The error of `ioutil.WriteFile(filename, b, 0644)` for each `b`. -/
  WriteFile : Str → Option Str

/-- How a run of `main` ends. -/
inductive Outcome where
  /-- Outcome of `log.Fatal`: the message is printed and the exit status is 1. -/
  | fatal (msg : Str)
  /-- Outcome of `os.Exit(code)`. -/
  | exit (code : Nat)
  /-- Outcome when `main` returns, exit status 0: what `fmt.Println` printed, and, when
  `hosts.Write` was called, the bytes handed to it with the error it returned. -/
  | returned (printed : Option Str) (written : Option (Str × Option Str))
deriving DecidableEq, Repr

/-- The exit status of the process. -/
def Outcome.exitCode : Outcome → Nat
  | .fatal _ => 1
  | .exit code => code
  | .returned _ _ => 0

/-- The bytes that the run handed to `ioutil.WriteFile`, if it called it. -/
def Outcome.writeAttempt : Outcome → Option Str
  | .returned _ (some (b, _)) => some b
  | _ => none

/-- The end of `main`, after the `switch`: the file is written when the store
is marked changed, and the error of `hosts.Write` is dropped. -/
def finish (env : Env) (hosts : hostlist) (printed : Option Str) : Outcome :=
  if hosts.changed then
    .returned printed (some (hosts.Bytes, hosts.Write env.WriteFile))
  else
    .returned printed none

/-- Source `main`.  The error of `hosts.Read` is dropped, so the `switch` runs
on the store that `Read` left. -/
def main (ParseIP : Str → Option IP) (env : Env) : Outcome :=
  if !env.amIRoot then .fatal (ascii "Please run this program as Root!")
  else if env.Args.length ≤ 1 then .fatal (ascii "Nothing to do, please specify command")
  else
    let hosts := (hostlist.Read { lines := [], changed := false } env.ReadFile).1
    let command := env.Args.getD 1 []
    if command = ascii "list" ∨ command = ascii "ls" then
      finish env hosts (some (hosts.Bytes ++ [newline]))
    else if command = ascii "del" ∨ command = ascii "rm" ∨ command = ascii "-" then
      if env.Args.length ≠ 3 then .fatal (ascii "Please give an IP or hostname to delete")
      else finish env (hosts.Remove (env.Args.getD 2 [])).1 none
    else if command = ascii "ucom" then
      if env.Args.length ≠ 3 then .fatal (ascii "Please give an IP or hostname to uncomment")
      else finish env (hosts.Uncomment (env.Args.getD 2 [])).1 none
    else if command = ascii "com" then
      if env.Args.length ≠ 3 then .fatal (ascii "Please give an IP or hostname to comment out")
      else finish env (hosts.Comment (env.Args.getD 2 [])).1 none
    else if command = ascii "add" ∨ command = ascii "+" then
      if env.Args.length ≠ 4 then .fatal (ascii "Please give arguments in the form ip, hostname")
      else
        match hosts.Add ParseIP (env.Args.getD 2 []) (env.Args.getD 3 []) with
        | (_, some err) => .fatal err
        | (hosts, none) => finish env hosts none
    else if command = ascii "has" ∨ command = ascii "?" ∨ command = ascii "contains" then
      if env.Args.length ≠ 4 then .fatal (ascii "Please give arguments in the form ip, hostname")
      else
        match hosts.Contains ParseIP (env.Args.getD 2 []) (env.Args.getD 3 []) with
        | (_, _, some err) => .fatal err
        | (_, true, none) => .exit 0
        | (_, false, none) => .exit 1
    else .fatal (ascii "Unknown command: " ++ command)

/-! ## A concrete address parser

`net.ParseIP` accepts the dotted-decimal IPv4 literals (and IPv6 literals).
The parser below accepts exactly the former; it instantiates the parameter
`ParseIP` at concrete inputs. -/

/-- The value of a decimal field of one to three digits without a leading
zero, at most 255. -/
def decimalField (f : Str) : Option UInt8 :=
  if f.length = 0 ∨ 3 < f.length then none
  else if ¬ f.all (fun c => 48 ≤ c.toNat ∧ c.toNat ≤ 57) then none
  else if 1 < f.length ∧ f.head? = some 48 then none
  else
    let v := f.foldl (fun n c => 10 * n + (c.toNat - 48)) 0
    if v ≤ 255 then some (UInt8.ofNat v) else none

/-- Dotted-decimal IPv4 literals, returned in the 16-byte form of `net.IP`. -/
def dottedQuad (s : Str) : Option IP :=
  match (strings.Split s dot).map decimalField with
  | [some a, some b, some c, some d] => some ([0, 0, 0, 0, 0, 0, 0, 0, 0, 0, 255, 255, a, b, c, d])
  | _ => none

/-! ## Lemmas on the string functions -/

theorem isPrefixOf_iff_append (p s : Str) :
    p.isPrefixOf s = true ↔ ∃ v, s = p ++ v := by
  induction p generalizing s with
  | nil => simp
  | cons x p ih =>
    cases s with
    | nil => simp [List.isPrefixOf]
    | cons y s =>
      simp only [List.isPrefixOf, Bool.and_eq_true, beq_iff_eq, ih, List.cons_append,
        List.cons.injEq]
      constructor
      · rintro ⟨rfl, v, rfl⟩
        exact ⟨v, rfl, rfl⟩
      · rintro ⟨v, rfl, rfl⟩
        exact ⟨rfl, v, rfl⟩

theorem strings.Contains_iff (s substr : Str) :
    strings.Contains s substr = true ↔ ∃ u v, s = u ++ substr ++ v := by
  induction s with
  | nil =>
    simp only [strings.Contains, isPrefixOf_iff_append]
    constructor
    · rintro ⟨v, h⟩
      exact ⟨[], v, by simpa using h⟩
    · rintro ⟨u, v, h⟩
      have h1 : u ++ substr ++ v = [] := h.symm
      simp only [List.append_eq_nil] at h1
      exact ⟨[], by simp [h1.1.2]⟩
  | cons c cs ih =>
    simp only [strings.Contains, Bool.or_eq_true, isPrefixOf_iff_append, ih]
    constructor
    · rintro (⟨v, h⟩ | ⟨u, v, h⟩)
      · exact ⟨[], v, by simpa using h⟩
      · exact ⟨c :: u, v, by simp [h]⟩
    · rintro ⟨u, v, h⟩
      cases u with
      | nil => exact Or.inl ⟨v, by simpa using h⟩
      | cons d u =>
        simp only [List.cons_append, List.cons.injEq] at h
        exact Or.inr ⟨u, v, h.2⟩

theorem strings.Split_ne_nil (s : Str) (sep : UInt8) : strings.Split s sep ≠ [] := by
  cases s with
  | nil => simp [strings.Split]
  | cons c cs =>
    simp only [strings.Split]
    split
    · simp
    · split <;> simp

theorem strings.Join_Split (s : Str) (sep : UInt8) :
    strings.Join (strings.Split s sep) [sep] = s := by
  induction s with
  | nil => simp [strings.Split, strings.Join]
  | cons c cs ih =>
    simp only [strings.Split]
    split
    · rename_i h
      cases hs : strings.Split cs sep with
      | nil => exact absurd hs (strings.Split_ne_nil cs sep)
      | cons p ps =>
        rw [hs] at ih
        simp [strings.Join, ih, h]
    · cases hs : strings.Split cs sep with
      | nil => exact absurd hs (strings.Split_ne_nil cs sep)
      | cons p ps =>
        rw [hs] at ih
        cases ps with
        | nil => simpa [strings.Join] using ih
        | cons q qs =>
          simp only [strings.Join, List.cons_append] at ih ⊢
          rw [ih]

/-! ## `reverse` reverses -/

theorem reverseStep_length (a : List Nat) (i : Nat) : (reverseStep a i).length = a.length := by
  simp [reverseStep]

theorem reverseStep_getElem? (a : List Nat) (k j : Nat) (hk : 2 * (k + 1) ≤ a.length) :
    (reverseStep a k)[j]? =
      if j = k then a[a.length - 1 - k]? else if j = a.length - 1 - k then a[k]? else a[j]? := by
  have h1 : k < a.length := by omega
  have h2 : a.length - 1 - k < a.length := by omega
  simp only [reverseStep, List.getD_eq_getElem?_getD, List.getElem?_set, List.length_set,
    List.getElem?_eq_getElem h1, List.getElem?_eq_getElem h2, Option.getD_some]
  by_cases e1 : j = k
  · subst e1
    have e3 : ¬ (a.length - 1 - j = j) := by omega
    rw [if_neg e3, if_pos rfl, if_pos h1, if_pos rfl]
  · by_cases e2 : j = a.length - 1 - k
    · subst e2
      rw [if_pos rfl, if_pos h2, if_neg e1, if_pos rfl]
    · have e1' : ¬ (k = j) := fun h => e1 h.symm
      have e2' : ¬ (a.length - 1 - k = j) := fun h => e2 h.symm
      rw [if_neg e2', if_neg e1', if_neg e1, if_neg e2]

theorem reverse_loop (k : Nat) : ∀ a : List Nat, 2 * k ≤ a.length →
    ((List.range k).reverse.foldl reverseStep a).length = a.length ∧
    ∀ j, ((List.range k).reverse.foldl reverseStep a)[j]? =
      if j < k ∨ (a.length - k ≤ j ∧ j < a.length) then a[a.length - 1 - j]? else a[j]? := by
  induction k with
  | zero =>
    intro a _
    refine ⟨by simp, fun j => ?_⟩
    have c : ¬ (j < 0 ∨ (a.length - 0 ≤ j ∧ j < a.length)) := by omega
    rw [if_neg c]
    simp
  | succ k ih =>
    intro a hk
    have hlen := reverseStep_length a k
    obtain ⟨l1, l2⟩ := ih (reverseStep a k) (by omega)
    simp only [List.range_succ, List.reverse_append, List.reverse_singleton, List.singleton_append,
      List.foldl_cons]
    refine ⟨by omega, fun j => ?_⟩
    rw [l2 j, hlen, reverseStep_getElem? a k _ hk, reverseStep_getElem? a k _ hk]
    by_cases c1 : j < k ∨ (a.length - k ≤ j ∧ j < a.length)
    · have c2 : j < k + 1 ∨ (a.length - (k + 1) ≤ j ∧ j < a.length) := by omega
      have c3 : ¬ (a.length - 1 - j = k) := by omega
      have c4 : ¬ (a.length - 1 - j = a.length - 1 - k) := by omega
      rw [if_pos c1, if_pos c2, if_neg c3, if_neg c4]
    · by_cases e1 : j = k
      · subst e1
        have c2 : j < j + 1 ∨ (a.length - (j + 1) ≤ j ∧ j < a.length) := by omega
        rw [if_neg c1, if_pos c2, if_pos rfl]
      · by_cases e2 : j = a.length - 1 - k
        · have c2 : j < k + 1 ∨ (a.length - (k + 1) ≤ j ∧ j < a.length) := by omega
          have c5 : a.length - 1 - j = k := by omega
          rw [if_neg c1, if_pos c2, if_neg e1, if_pos e2, c5]
        · have c2 : ¬ (j < k + 1 ∨ (a.length - (k + 1) ≤ j ∧ j < a.length)) := by omega
          rw [if_neg c1, if_neg c2, if_neg e1, if_neg e2]

theorem reverse_eq (a : List Nat) : reverse a = a.reverse := by
  obtain ⟨_, l2⟩ := reverse_loop (a.length / 2) a (by omega)
  apply List.ext_getElem?
  intro j
  rw [reverse, l2 j]
  by_cases hj : j < a.length
  · rw [List.getElem?_reverse hj]
    by_cases c : j < a.length / 2 ∨ (a.length - a.length / 2 ≤ j ∧ j < a.length)
    · rw [if_pos c]
    · have e : a.length - 1 - j = j := by omega
      rw [if_neg c, e]
  · have c : ¬ (j < a.length / 2 ∨ (a.length - a.length / 2 ≤ j ∧ j < a.length)) := by omega
    have h1 : a.length ≤ j := by omega
    rw [if_neg c, List.getElem?_eq_none h1, List.getElem?_eq_none (by simpa using h1)]

/-! ## `Remove` is a stable filter -/

theorem collect_acc (thing : Str) (lines : List Str) : ∀ (i : Nat) (deletes : List Nat),
    hostlist.collect thing lines i deletes = deletes ++ hostlist.collect thing lines i [] := by
  induction lines with
  | nil => intro i deletes; simp [hostlist.collect]
  | cons line rest ih =>
    intro i deletes
    simp only [hostlist.collect]
    rw [ih (i + 1) (if containsPart line thing = true then deletes ++ [i] else deletes),
      ih (i + 1) (if containsPart line thing = true then [] ++ [i] else [])]
    split <;> simp

theorem collect_cons (thing line : Str) (rest : List Str) (i : Nat) :
    hostlist.collect thing (line :: rest) i [] =
      (if containsPart line thing then [i] else []) ++ hostlist.collect thing rest (i + 1) [] := by
  simp only [hostlist.collect]
  rw [collect_acc]
  split <;> simp

theorem deleteAt_middle (pre : List Str) (line : Str) (post : List Str) :
    hostlist.deleteAt (pre ++ line :: post) pre.length = pre ++ post := by
  simp [hostlist.deleteAt, List.take_append_eq_append_take, List.drop_append_eq_append_drop]

theorem delete_descending (thing : Str) (lines : List Str) : ∀ pre : List Str,
    (hostlist.collect thing lines pre.length []).reverse.foldl hostlist.deleteAt (pre ++ lines) =
      pre ++ lines.filter (fun line => !containsPart line thing) := by
  induction lines with
  | nil => intro pre; simp [hostlist.collect]
  | cons line rest ih =>
    intro pre
    have step := ih (pre ++ [line])
    simp only [List.length_append, List.length_singleton, List.append_assoc,
      List.singleton_append] at step
    rw [collect_cons, List.reverse_append, List.foldl_append, step]
    by_cases m : containsPart line thing = true
    · simp [m, deleteAt_middle]
    · simp [m]

theorem Remove_lines (hl : hostlist) (thing : Str) :
    (hl.Remove thing).1.lines = hl.lines.filter (fun line => !containsPart line thing) := by
  have h := delete_descending thing hl.lines []
  simp only [List.length_nil, List.nil_append] at h
  simp only [hostlist.Remove, reverse_eq]
  exact h

/-! ## The in-place loops of `Comment` and `Uncomment` are maps -/

theorem set_getD_getElem? (F : Str → Str) (r : List Str) (k j : Nat) :
    (r.set k (F (r.getD k [])))[j]? = if j = k then r[j]?.map F else r[j]? := by
  rw [List.getElem?_set, List.getD_eq_getElem?_getD]
  by_cases e : k = j
  · subst e
    by_cases h : k < r.length
    · simp [h, List.getElem?_eq_getElem h]
    · have h1 : r.length ≤ k := by omega
      simp [h, List.getElem?_eq_none h1]
  · have e1 : ¬ (j = k) := fun h => e h.symm
    rw [if_neg e, if_neg e1]

theorem set_getD_self (r : List Str) (k : Nat) : r.set k (r.getD k []) = r := by
  apply List.ext_getElem?
  intro j
  have h := set_getD_getElem? id r k j
  simp only [id_eq, Option.map_id_fun] at h
  rw [h]
  split <;> rfl

theorem foldl_set_range (F : Str → Str) (step : List Str → Nat → List Str)
    (hstep : ∀ r k, step r k = r.set k (F (r.getD k []))) (ls : List Str) (k : Nat) :
    ∀ j, ((List.range k).foldl step ls)[j]? = if j < k then ls[j]?.map F else ls[j]? := by
  induction k with
  | zero => intro j; simp
  | succ k ih =>
    intro j
    rw [List.range_succ, List.foldl_append, List.foldl_cons, List.foldl_nil, hstep,
      set_getD_getElem?, ih j]
    by_cases e : j = k
    · subst e
      have c1 : ¬ (j < j) := by omega
      have c2 : j < j + 1 := by omega
      rw [if_pos rfl, if_neg c1, if_pos c2]
    · by_cases c1 : j < k
      · have c2 : j < k + 1 := by omega
        rw [if_neg e, if_pos c1, if_pos c2]
      · have c2 : ¬ (j < k + 1) := by omega
        rw [if_neg e, if_neg c1, if_neg c2]

theorem foldl_set_range_length (F : Str → Str) (step : List Str → Nat → List Str)
    (hstep : ∀ r k, step r k = r.set k (F (r.getD k []))) (ls : List Str) :
    (List.range ls.length).foldl step ls = ls.map F := by
  apply List.ext_getElem?
  intro j
  rw [foldl_set_range F step hstep ls ls.length j, List.getElem?_map]
  by_cases c : j < ls.length
  · rw [if_pos c]
  · have h1 : ls.length ≤ j := by omega
    rw [if_neg c, List.getElem?_eq_none h1]
    rfl

theorem Comment_lines (hl : hostlist) (thing : Str) :
    (hl.Comment thing).1.lines = hl.lines.map (commentLine thing) := by
  simp only [hostlist.Comment]
  apply foldl_set_range_length
  intro r k
  simp only [hostlist.commentStep, commentLine]
  split
  · rfl
  · exact (set_getD_self r k).symm

theorem Uncomment_lines (hl : hostlist) (thing : Str) :
    (hl.Uncomment thing).1.lines = hl.lines.map (uncommentLine thing) := by
  simp only [hostlist.Uncomment]
  apply foldl_set_range_length
  intro r k
  simp only [hostlist.uncommentStep, uncommentLine]
  split
  · rfl
  · exact (set_getD_self r k).symm

/-! ## `Contains` and `Add` -/

theorem scan_iff (target : Str) (lines : List Str) :
    hostlist.scan target lines = true ↔ target ∈ lines := by
  induction lines with
  | nil => simp [hostlist.scan]
  | cons line rest ih =>
    simp only [hostlist.scan, List.mem_cons]
    by_cases e : line = target
    · simp [e]
    · have e1 : ¬ (target = line) := fun h => e h.symm
      simp [e, e1, ih]

theorem Add_error_iff (ParseIP : Str → Option IP) (hl : hostlist) (a b : Str) :
    (hostlist.Add ParseIP hl a b).2 = none ↔ ((ParseIP a).isSome ∨ (ParseIP b).isSome) := by
  unfold hostlist.Add
  cases ha : ParseIP a <;> cases hb : ParseIP b <;> simp

/-- C1: whenever `Add(a, b)` succeeds on a line store, `Contains(a, b)` on the
store that `Add` leaves returns found = true and no error. -/
theorem contains_after_add (ParseIP : Str → Option IP) (hl : hostlist) (a b : Str)
    (h : (hostlist.Add ParseIP hl a b).2 = none) :
    (hostlist.Contains ParseIP (hostlist.Add ParseIP hl a b).1 a b).2 = (true, none) := by
  have hp := (Add_error_iff ParseIP hl a b).mp h
  have hc : ((ParseIP a).isNone && (ParseIP b).isNone) = false := by
    cases ha : ParseIP a <;> cases hb : ParseIP b <;> simp [ha, hb] at hp ⊢
  have hs : ∀ target : Str, hostlist.scan target (hl.lines ++ [target]) = true :=
    fun target => (scan_iff _ _).mpr (by simp)
  simp only [hostlist.Contains, hostlist.Add, hc, Bool.false_eq_true, if_false, hs]

theorem contains_after_add_witness :
    (hostlist.Add dottedQuad ⟨[ascii "127.0.0.1\tlocalhost"], false⟩
        (ascii "newhost") (ascii "10.0.0.5")).2 = none ∧
    (hostlist.Contains dottedQuad
        (hostlist.Add dottedQuad ⟨[ascii "127.0.0.1\tlocalhost"], false⟩
          (ascii "newhost") (ascii "10.0.0.5")).1
        (ascii "newhost") (ascii "10.0.0.5")).2 = (true, none) :=
  ⟨by decide, contains_after_add dottedQuad ⟨[ascii "127.0.0.1\tlocalhost"], false⟩
    (ascii "newhost") (ascii "10.0.0.5") (by decide)⟩

/-- C2: for every byte sequence `x`, `Bytes()` of the store that `Parse(x)`
leaves is `x` again, whatever the store held before. -/
theorem bytes_parse (hl : hostlist) (x : Str) : (hl.Parse x).Bytes = x := by
  simp only [hostlist.Parse, hostlist.Bytes]
  exact strings.Join_Split x newline

/-- C3 (the code departs from it): with a parser that accepts `10.0.0.1`,
`Contains("10.0.0.1", "myhost")` on the store whose only line is
`10.0.0.1<TAB>myhost` returns found = false: the line searched for is the
single tab. -/
theorem has_address_first_not_found (ParseIP : Str → Option IP)
    (h : (ParseIP (ascii "10.0.0.1")).isSome = true) :
    (hostlist.Contains ParseIP ⟨[ascii "10.0.0.1\tmyhost"], false⟩
      (ascii "10.0.0.1") (ascii "myhost")).2 = (false, none) := by
  have hn : (ParseIP (ascii "10.0.0.1")).isNone = false := by
    cases hp : ParseIP (ascii "10.0.0.1") <;> simp [hp] at h ⊢
  simp only [hostlist.Contains, hostlist.resolve, hn, Bool.false_and, Bool.false_eq_true,
    if_false]
  decide

theorem has_address_first_not_found_witness :
    (dottedQuad (ascii "10.0.0.1")).isSome = true ∧
    (dottedQuad (ascii "myhost")).isSome = false ∧
    (hostlist.Contains dottedQuad ⟨[ascii "10.0.0.1\tmyhost"], false⟩
      (ascii "10.0.0.1") (ascii "myhost")).2 = (false, none) :=
  ⟨by decide, by decide, has_address_first_not_found dottedQuad (by decide)⟩

/-- C4 (the code departs from it): with a parser that accepts `10.0.0.5`,
`Add("10.0.0.5", "newhost")` succeeds and marks the store dirty, but the line
it appends is the single tab, not `10.0.0.5<TAB>newhost`. -/
theorem add_address_first_appends_tab (ParseIP : Str → Option IP) (hl : hostlist)
    (h : (ParseIP (ascii "10.0.0.5")).isSome = true) :
    hostlist.Add ParseIP hl (ascii "10.0.0.5") (ascii "newhost") =
      (⟨hl.lines ++ [[tab]], true⟩, none) ∧
    (hostlist.Add ParseIP hl (ascii "10.0.0.5") (ascii "newhost")).1.lines.getLast? =
      some [tab] ∧
    [tab] ≠ ascii "10.0.0.5\tnewhost" := by
  have hn : (ParseIP (ascii "10.0.0.5")).isNone = false := by
    cases hp : ParseIP (ascii "10.0.0.5") <;> simp [hp] at h ⊢
  refine ⟨?_, ?_, by decide⟩ <;>
    simp [hostlist.Add, hostlist.resolve, hn, entryLine]

theorem add_address_first_appends_tab_witness :
    (dottedQuad (ascii "10.0.0.5")).isSome = true ∧
    hostlist.Add dottedQuad ⟨[], false⟩ (ascii "10.0.0.5") (ascii "newhost") =
      (⟨[[tab]], true⟩, none) :=
  ⟨by decide, (add_address_first_appends_tab dottedQuad ⟨[], false⟩ (by decide)).1⟩

/-- C8: when neither `a` nor `b` parses as an IP address, `Add(a, b)` returns
the validation error and the store, line sequence and dirty flag, is the one
before the call. -/
theorem add_neither_valid (ParseIP : Str → Option IP) (hl : hostlist) (a b : Str)
    (ha : ParseIP a = none) (hb : ParseIP b = none) :
    hostlist.Add ParseIP hl a b = (hl, some (neitherValid a b)) := by
  simp [hostlist.Add, ha, hb]

theorem add_neither_valid_witness :
    dottedQuad (ascii "myhost") = none ∧ dottedQuad (ascii "10.0.0") = none ∧
    hostlist.Add dottedQuad ⟨[ascii "127.0.0.1\tlocalhost"], false⟩
        (ascii "myhost") (ascii "10.0.0") =
      (⟨[ascii "127.0.0.1\tlocalhost"], false⟩, some (neitherValid (ascii "myhost") (ascii "10.0.0"))) :=
  ⟨by decide, by decide,
    add_neither_valid dottedQuad ⟨[ascii "127.0.0.1\tlocalhost"], false⟩
      (ascii "myhost") (ascii "10.0.0") (by decide) (by decide)⟩

/-! ## Matching lines -/

theorem containsPart_iff (line thing : Str) :
    containsPart line thing = true ↔ DelimitedToken thing line := by
  simp only [containsPart, Bool.or_eq_true, strings.Contains_iff, DelimitedToken]

theorem containsPart_cons (c : UInt8) (line thing : Str)
    (h : containsPart line thing = true) : containsPart (c :: line) thing = true := by
  simp only [containsPart, Bool.or_eq_true, strings.Contains] at h ⊢
  rcases h with h | h
  · exact Or.inl (Or.inr h)
  · exact Or.inr (Or.inr h)

theorem mem_Remove_lines (hl : hostlist) (thing line : Str) :
    line ∈ (hl.Remove thing).1.lines ↔ line ∈ hl.lines ∧ containsPart line thing = false := by
  rw [Remove_lines]
  simp [List.mem_filter]

/-! ## `Remove` -/

/-- C5 (the code departs from it): on the store whose only line is
`192.168.1.1<TAB>example.com`, `example` is none of the tab-separated fields of
that line, yet `Remove("example")` deletes the line and leaves the empty
store: `containsPart` finds `<TAB>example` as a substring and does not look at
what follows the needle. -/
theorem remove_partial_token_deletes :
    ascii "example" ∉ strings.Split (ascii "192.168.1.1\texample.com") tab ∧
    ascii "192.168.1.1\texample.com" ∉
      (hostlist.Remove ⟨[ascii "192.168.1.1\texample.com"], false⟩ (ascii "example")).1.lines ∧
    (hostlist.Remove ⟨[ascii "192.168.1.1\texample.com"], false⟩ (ascii "example")).1 =
      ⟨[], true⟩ := by
  decide

/-- C6: after `Remove(thing)` no remaining line has an occurrence of `thing`
immediately preceded or immediately followed by a tab; on every store,
`Remove("example.com")` and `Remove("192.168.1.1")` each leave a store without
the line `192.168.1.1<TAB>example.com`. -/
theorem remove_leaves_no_token (hl : hostlist) (thing : Str) :
    (∀ line ∈ (hl.Remove thing).1.lines, ¬ DelimitedToken thing line) ∧
    ascii "192.168.1.1\texample.com" ∉ (hl.Remove (ascii "example.com")).1.lines ∧
    ascii "192.168.1.1\texample.com" ∉ (hl.Remove (ascii "192.168.1.1")).1.lines := by
  refine ⟨fun line hmem htok => ?_, fun hmem => ?_, fun hmem => ?_⟩
  · have h := ((mem_Remove_lines hl thing line).mp hmem).2
    rw [(containsPart_iff line thing).mpr htok] at h
    exact Bool.noConfusion h
  · exact absurd ((mem_Remove_lines _ _ _).mp hmem).2 (by decide)
  · exact absurd ((mem_Remove_lines _ _ _).mp hmem).2 (by decide)

theorem remove_leaves_no_token_witness :
    ascii "10.0.0.1\tother" ∈
      (hostlist.Remove ⟨[ascii "192.168.1.1\texample.com", ascii "10.0.0.1\tother"], false⟩
        (ascii "example.com")).1.lines ∧
    ¬ DelimitedToken (ascii "example.com") (ascii "10.0.0.1\tother") :=
  ⟨by decide,
    (remove_leaves_no_token
      ⟨[ascii "192.168.1.1\texample.com", ascii "10.0.0.1\tother"], false⟩
      (ascii "example.com")).1 (ascii "10.0.0.1\tother") (by decide)⟩

/-- C9: the line sequence after `Remove(thing)` is the original sequence
filtered to the lines that do not match `thing`, in their original order: the
index-collect, reverse and delete-by-index loops amount to a stable filter. -/
theorem remove_eq_filter (hl : hostlist) (thing : Str) :
    (hl.Remove thing).1.lines = hl.lines.filter (fun line => !containsPart line thing) :=
  Remove_lines hl thing

/-! ## `Comment` and `Uncomment` -/

theorem commentLine_matched (thing line : Str) (h : containsPart line thing = true) :
    commentLine thing line = hash :: line := by
  simp [commentLine, h]

theorem commentLine_unmatched (thing line : Str) (h : containsPart line thing = false) :
    commentLine thing line = line := by
  simp [commentLine, h]

theorem TrimLeft_hash_cons (line : Str) :
    strings.TrimLeft (hash :: line) [hash] = strings.TrimLeft line [hash] := by
  simp [strings.TrimLeft, List.dropWhile_cons]

theorem TrimLeft_hash_eq_self (line : Str) :
    strings.TrimLeft line [hash] = line ↔ line.head? ≠ some hash := by
  cases line with
  | nil => simp [strings.TrimLeft]
  | cons c rest =>
    simp only [strings.TrimLeft, List.dropWhile_cons, List.head?_cons, ne_eq, Option.some.injEq]
    by_cases e : c = hash
    · subst e
      simp only [List.elem_cons_self, if_true, not_true_eq_false, iff_false]
      intro h
      have hl := congrArg List.length h
      have hle := (List.dropWhile_sublist (fun c => List.elem c [hash]) (l := rest)).length_le
      simp only [List.length_cons] at hl
      omega
    · simp [e]

theorem uncomment_comment_line (thing line : Str) :
    uncommentLine thing (commentLine thing line) = line ↔
      (containsPart line thing = true → line.head? ≠ some hash) := by
  cases h : containsPart line thing
  · simp [commentLine, uncommentLine, h]
  · have h2 := containsPart_cons hash line thing h
    simp only [commentLine_matched thing line h, uncommentLine, h2, if_true, TrimLeft_hash_cons,
      TrimLeft_hash_eq_self, forall_const]

/-- C7, the claim as stated fails: on the store whose only line is
`#1.2.3.4<TAB>host`, `Comment("host")` followed by `Uncomment("host")` leaves
`1.2.3.4<TAB>host`, not the original line. -/
theorem comment_uncomment_loses_hash :
    ((hostlist.Comment ⟨[ascii "#1.2.3.4\thost"], false⟩ (ascii "host")).1.Uncomment
      (ascii "host")).1.lines = [ascii "1.2.3.4\thost"] ∧
    ((hostlist.Comment ⟨[ascii "#1.2.3.4\thost"], false⟩ (ascii "host")).1.Uncomment
      (ascii "host")).1.lines ≠ [ascii "#1.2.3.4\thost"] := by
  decide

/-- C7, amended: `Comment(thing)` followed by `Uncomment(thing)` restores the
line sequence exactly when no line that contains `thing` as a tab-delimited
token starts with `#`; in particular it restores every store without such
a line. -/
theorem comment_uncomment_roundtrip (hl : hostlist) (thing : Str) :
    ((hl.Comment thing).1.Uncomment thing).1.lines = hl.lines ↔
      ∀ line ∈ hl.lines, containsPart line thing = true → line.head? ≠ some hash := by
  rw [Uncomment_lines, Comment_lines, List.map_map]
  constructor
  · intro h line hmem
    have h1 : List.map (uncommentLine thing ∘ commentLine thing) hl.lines = List.map id hl.lines := by
      rw [h, List.map_id]
    exact (uncomment_comment_line thing line).mp (List.map_inj_left.mp h1 line hmem)
  · intro h
    have h1 : List.map (uncommentLine thing ∘ commentLine thing) hl.lines = List.map id hl.lines :=
      List.map_inj_left.mpr (fun line hmem => (uncomment_comment_line thing line).mpr (h line hmem))
    rw [h1, List.map_id]

theorem comment_uncomment_roundtrip_witness :
    ((hostlist.Comment ⟨[ascii "# hosts", ascii "1.2.3.4\thost", ascii "", ascii "#5.6.7.8\tb"],
        false⟩ (ascii "host")).1.Uncomment (ascii "host")).1.lines =
      [ascii "# hosts", ascii "1.2.3.4\thost", ascii "", ascii "#5.6.7.8\tb"] :=
  (comment_uncomment_roundtrip
    ⟨[ascii "# hosts", ascii "1.2.3.4\thost", ascii "", ascii "#5.6.7.8\tb"], false⟩
    (ascii "host")).mpr (by decide)

theorem commentTimes_lines (thing : Str) (n : Nat) : ∀ hl : hostlist,
    (commentTimes thing n hl).lines =
      hl.lines.map (fun line =>
        if containsPart line thing then List.replicate n hash ++ line else line) := by
  induction n with
  | zero => intro hl; simp [commentTimes]
  | succ n ih =>
    intro hl
    rw [commentTimes, ih, Comment_lines, List.map_map]
    apply List.map_inj_left.mpr
    intro line _
    cases h : containsPart line thing
    · simp [commentLine, h]
    · have h2 := containsPart_cons hash line thing h
      simp [commentLine, h, h2, List.replicate_succ']

/-- C10: `n` successive calls of `Comment(thing)` keep the number and the order
of the lines, put exactly `n` characters `#` in front of each line that
contained `thing` as a tab-delimited token and leave the other lines as they
were; so on a store with a matching line a second `Comment` changes the
result of the first. -/
theorem comment_stacks (hl : hostlist) (thing : Str) :
    (∀ n, (commentTimes thing n hl).lines.length = hl.lines.length ∧
      (commentTimes thing n hl).lines =
        hl.lines.map (fun line =>
          if containsPart line thing then List.replicate n hash ++ line else line)) ∧
    ((∃ line ∈ hl.lines, containsPart line thing = true) →
      ((hl.Comment thing).1.Comment thing).1.lines ≠ (hl.Comment thing).1.lines) := by
  refine ⟨fun n => ⟨?_, commentTimes_lines thing n hl⟩, ?_⟩
  · rw [commentTimes_lines, List.length_map]
  · rintro ⟨line, hmem, h⟩ heq
    rw [Comment_lines, Comment_lines, List.map_map] at heq
    have h1 := List.map_inj_left.mp heq line hmem
    have h2 := containsPart_cons hash line thing h
    simp only [Function.comp, commentLine_matched thing line h,
      commentLine_matched thing (hash :: line) h2] at h1
    have hl := congrArg List.length h1
    simp only [List.length_cons] at hl
    omega

theorem comment_stacks_witness :
    ((hostlist.Comment ⟨[ascii "1.2.3.4\thost", ascii "5.6.7.8\tb"], false⟩
        (ascii "host")).1.Comment (ascii "host")).1.lines ≠
      (hostlist.Comment ⟨[ascii "1.2.3.4\thost", ascii "5.6.7.8\tb"], false⟩
        (ascii "host")).1.lines :=
  (comment_stacks ⟨[ascii "1.2.3.4\thost", ascii "5.6.7.8\tb"], false⟩ (ascii "host")).2
    ⟨ascii "1.2.3.4\thost", by decide, by decide⟩

/-! ## `Uncomment` strips the whole run of `#` -/

theorem TrimLeft_hash_head (line : Str) : (strings.TrimLeft line [hash]).head? ≠ some hash := by
  induction line with
  | nil => simp [strings.TrimLeft]
  | cons c rest ih =>
    by_cases e : c = hash
    · subst e
      rw [TrimLeft_hash_cons]
      exact ih
    · simp [strings.TrimLeft, List.dropWhile_cons, e]

theorem TrimLeft_hash_run (line : Str) :
    ∃ k, line = List.replicate k hash ++ strings.TrimLeft line [hash] := by
  induction line with
  | nil => exact ⟨0, by simp [strings.TrimLeft]⟩
  | cons c rest ih =>
    by_cases e : c = hash
    · subst e
      obtain ⟨k, hk⟩ := ih
      refine ⟨k + 1, ?_⟩
      rw [TrimLeft_hash_cons, List.replicate_succ, List.cons_append, ← hk]
    · exact ⟨0, by simp [strings.TrimLeft, List.dropWhile_cons, e]⟩

/-- C11: `Uncomment(thing)` keeps the number and the order of the lines,
replaces each line that contains `thing` as a tab-delimited token by
`TrimLeft(line, "#")` and leaves the other lines as they were; and
`TrimLeft(line, "#")` is the line without its whole leading run of `#`: the
line is some number of `#` followed by it, and it does not start with `#`. -/
theorem uncomment_strips_all (hl : hostlist) (thing : Str) :
    (hl.Uncomment thing).1.lines.length = hl.lines.length ∧
    (hl.Uncomment thing).1.lines =
      hl.lines.map (fun line =>
        if containsPart line thing then strings.TrimLeft line [hash] else line) ∧
    ∀ line : Str, (strings.TrimLeft line [hash]).head? ≠ some hash ∧
      ∃ k, line = List.replicate k hash ++ strings.TrimLeft line [hash] := by
  refine ⟨?_, ?_, fun line => ⟨TrimLeft_hash_head line, TrimLeft_hash_run line⟩⟩
  · rw [Uncomment_lines, List.length_map]
  · rw [Uncomment_lines]
    rfl

/-! ## Errors and effects of the operations -/

theorem map_eq_self_of (f : Str → Str) (lines : List Str) (h : ∀ line ∈ lines, f line = line) :
    lines.map f = lines := by
  induction lines with
  | nil => rfl
  | cons line rest ih =>
    rw [List.map_cons, h line (List.mem_cons_self _ _),
      ih (fun x hx => h x (List.mem_cons_of_mem _ hx))]

theorem both_none_iff (ParseIP : Str → Option IP) (a b : Str) :
    ((ParseIP a).isNone && (ParseIP b).isNone) = true ↔ (ParseIP a = none ∧ ParseIP b = none) := by
  simp [Option.isNone_iff_eq_none]

/-- C12: `Contains(a, b)` and `Add(a, b)` return an error exactly when neither
`a` nor `b` parses as an IP address, and the error is then the validation
error; when at least one parses, both return no error. -/
theorem validation_error_iff (ParseIP : Str → Option IP) (hl : hostlist) (a b : Str) :
    ((hostlist.Contains ParseIP hl a b).2.2 ≠ none ↔ (ParseIP a = none ∧ ParseIP b = none)) ∧
    ((hostlist.Add ParseIP hl a b).2 ≠ none ↔ (ParseIP a = none ∧ ParseIP b = none)) ∧
    ((ParseIP a = none ∧ ParseIP b = none) →
      (hostlist.Contains ParseIP hl a b).2 = (false, some (neitherValid a b)) ∧
      (hostlist.Add ParseIP hl a b).2 = some (neitherValid a b)) := by
  rw [← both_none_iff]
  cases h : ((ParseIP a).isNone && (ParseIP b).isNone) <;>
    simp [hostlist.Contains, hostlist.Add, h]

theorem validation_error_iff_witness :
    (hostlist.Contains dottedQuad ⟨[ascii "127.0.0.1\tlocalhost"], false⟩
        (ascii "myhost") (ascii "otherhost")).2 =
      (false, some (neitherValid (ascii "myhost") (ascii "otherhost"))) ∧
    (hostlist.Add dottedQuad ⟨[ascii "127.0.0.1\tlocalhost"], false⟩
        (ascii "myhost") (ascii "otherhost")).2 =
      some (neitherValid (ascii "myhost") (ascii "otherhost")) :=
  (validation_error_iff dottedQuad ⟨[ascii "127.0.0.1\tlocalhost"], false⟩
    (ascii "myhost") (ascii "otherhost")).2.2 ⟨by decide, by decide⟩

/-- C13: when `Add(a, b)` succeeds, the line sequence afterwards is the
original sequence followed by one new line: one line longer, with the earlier
lines unchanged and in place, whether or not the new line was already
present; and the dirty flag is true. -/
theorem add_appends_one_line (ParseIP : Str → Option IP) (hl : hostlist) (a b : Str)
    (h : (hostlist.Add ParseIP hl a b).2 = none) :
    (∃ line, (hostlist.Add ParseIP hl a b).1.lines = hl.lines ++ [line]) ∧
    (hostlist.Add ParseIP hl a b).1.lines.length = hl.lines.length + 1 ∧
    (hostlist.Add ParseIP hl a b).1.lines.take hl.lines.length = hl.lines ∧
    (hostlist.Add ParseIP hl a b).1.changed = true := by
  have hp := (Add_error_iff ParseIP hl a b).mp h
  have hc : ((ParseIP a).isNone && (ParseIP b).isNone) = false := by
    cases ha : ParseIP a <;> cases hb : ParseIP b <;> simp [ha, hb] at hp ⊢
  simp [hostlist.Add, hc]

theorem add_appends_one_line_witness :
    (hostlist.Add dottedQuad ⟨[ascii "10.0.0.5\tnewhost"], false⟩
        (ascii "newhost") (ascii "10.0.0.5")).1 =
      ⟨[ascii "10.0.0.5\tnewhost", ascii "10.0.0.5\tnewhost"], true⟩ ∧
    (hostlist.Add dottedQuad ⟨[ascii "10.0.0.5\tnewhost"], false⟩
        (ascii "newhost") (ascii "10.0.0.5")).1.changed = true :=
  ⟨by decide,
    (add_appends_one_line dottedQuad ⟨[ascii "10.0.0.5\tnewhost"], false⟩
      (ascii "newhost") (ascii "10.0.0.5") (by decide)).2.2.2⟩

/-- C14: `Remove(thing)`, `Comment(thing)` and `Uncomment(thing)` each return
no error and leave the dirty flag true, whatever the store; and when no line
contains `thing` as a tab-delimited token each leaves the line sequence as it
was. -/
theorem mutators_mark_dirty (hl : hostlist) (thing : Str) :
    ((hl.Remove thing).2 = none ∧ (hl.Remove thing).1.changed = true) ∧
    ((hl.Comment thing).2 = none ∧ (hl.Comment thing).1.changed = true) ∧
    ((hl.Uncomment thing).2 = none ∧ (hl.Uncomment thing).1.changed = true) ∧
    ((∀ line ∈ hl.lines, containsPart line thing = false) →
      (hl.Remove thing).1.lines = hl.lines ∧
      (hl.Comment thing).1.lines = hl.lines ∧
      (hl.Uncomment thing).1.lines = hl.lines) := by
  refine ⟨⟨rfl, rfl⟩, ⟨rfl, rfl⟩, ⟨rfl, rfl⟩, fun h => ⟨?_, ?_, ?_⟩⟩
  · rw [Remove_lines, List.filter_eq_self]
    intro line hmem
    simp [h line hmem]
  · rw [Comment_lines]
    exact map_eq_self_of _ _ (fun line hmem => by simp [commentLine, h line hmem])
  · rw [Uncomment_lines]
    exact map_eq_self_of _ _ (fun line hmem => by simp [uncommentLine, h line hmem])

theorem mutators_mark_dirty_witness :
    (hostlist.Remove ⟨[ascii "# hosts", ascii "127.0.0.1\tlocalhost"], false⟩
        (ascii "myhost")).1 = ⟨[ascii "# hosts", ascii "127.0.0.1\tlocalhost"], true⟩ ∧
    (hostlist.Remove ⟨[ascii "# hosts", ascii "127.0.0.1\tlocalhost"], false⟩
        (ascii "myhost")).1.lines = [ascii "# hosts", ascii "127.0.0.1\tlocalhost"] :=
  ⟨by decide,
    ((mutators_mark_dirty ⟨[ascii "# hosts", ascii "127.0.0.1\tlocalhost"], false⟩
      (ascii "myhost")).2.2.2 (by decide)).1⟩

/-! ## Which line `Add` and `Contains` work on -/

theorem resolve_of_parses (ParseIP : Str → Option IP) (a b : Str)
    (ha : (ParseIP a).isSome = true) : hostlist.resolve ParseIP a b = ([], []) := by
  cases hp : ParseIP a <;> simp [hp, hostlist.resolve] at ha ⊢

theorem resolve_of_fails (ParseIP : Str → Option IP) (a b : Str)
    (ha : ParseIP a = none) : hostlist.resolve ParseIP a b = (b, a) := by
  simp [hostlist.resolve, ha]

theorem guard_of_parses (ParseIP : Str → Option IP) (a b : Str)
    (h : (ParseIP a).isSome = true ∨ (ParseIP b).isSome = true) :
    ((ParseIP a).isNone && (ParseIP b).isNone) = false := by
  cases ha : ParseIP a <;> cases hb : ParseIP b <;> simp [ha, hb] at h ⊢

/-- C15 (the code departs from it): when both `a` and `b` parse as IP
addresses, `Add(a, b)` and `Contains(a, b)` neither reject the call nor take
`a` as the address: both return no error and work on the line made of the
empty address and the empty hostname, the single tab. -/
theorem both_addresses_empty_entry (ParseIP : Str → Option IP) (hl : hostlist) (a b : Str)
    (ha : (ParseIP a).isSome = true) (hb : (ParseIP b).isSome = true) :
    hostlist.Add ParseIP hl a b = (⟨hl.lines ++ [entryLine [] []], true⟩, none) ∧
    hostlist.Contains ParseIP hl a b = (hl, hostlist.scan (entryLine [] []) hl.lines, none) ∧
    entryLine [] [] = [tab] := by
  have hc := guard_of_parses ParseIP a b (Or.inr hb)
  have hr := resolve_of_parses ParseIP a b ha
  simp [hostlist.Add, hostlist.Contains, hc, hr, entryLine]

theorem both_addresses_empty_entry_witness :
    (dottedQuad (ascii "10.0.0.1")).isSome = true ∧
    (dottedQuad (ascii "10.0.0.2")).isSome = true ∧
    hostlist.Add dottedQuad ⟨[ascii "10.0.0.1\t10.0.0.2"], false⟩
        (ascii "10.0.0.1") (ascii "10.0.0.2") =
      (⟨[ascii "10.0.0.1\t10.0.0.2"] ++ [entryLine [] []], true⟩, none) :=
  ⟨by decide, by decide,
    (both_addresses_empty_entry dottedQuad ⟨[ascii "10.0.0.1\t10.0.0.2"], false⟩
      (ascii "10.0.0.1") (ascii "10.0.0.2") (by decide) (by decide)).1⟩

/-- C17: `Add(a, b)` appends and `Contains(a, b)` searches for the same line,
fixed by whether `a` parses: when `a` does not parse and `b` does it is
`b<TAB>a`; when `a` parses it is the single tab, whatever `a` and `b` are.
`Add` appends that line, and `Contains` returns no error and found = true
exactly when that line is one of the lines of the store. -/
theorem add_contains_same_line (ParseIP : Str → Option IP) (hl : hostlist) (a b : Str) :
    (ParseIP a = none → (ParseIP b).isSome = true →
      hostlist.Add ParseIP hl a b = (⟨hl.lines ++ [b ++ [tab] ++ a], true⟩, none) ∧
      hostlist.Contains ParseIP hl a b = (hl, decide (b ++ [tab] ++ a ∈ hl.lines), none) ∧
      ((hostlist.Contains ParseIP hl a b).2.1 = true ↔ b ++ [tab] ++ a ∈ hl.lines)) ∧
    ((ParseIP a).isSome = true →
      hostlist.Add ParseIP hl a b = (⟨hl.lines ++ [[tab]], true⟩, none) ∧
      hostlist.Contains ParseIP hl a b = (hl, decide ([tab] ∈ hl.lines), none) ∧
      ((hostlist.Contains ParseIP hl a b).2.1 = true ↔ [tab] ∈ hl.lines)) := by
  have scan_eq_decide : ∀ (target : Str) (lines : List Str),
      hostlist.scan target lines = decide (target ∈ lines) := by
    intro target lines
    induction lines with
    | nil => simp [hostlist.scan]
    | cons line rest ih =>
      by_cases e : line = target
      · simp [hostlist.scan, e]
      · have e1 : ¬ target = line := fun h => e h.symm
        simp [hostlist.scan, e, e1, ih]
  constructor
  · intro ha hb
    have hc := guard_of_parses ParseIP a b (Or.inr hb)
    have hr := resolve_of_fails ParseIP a b ha
    have hC : hostlist.Contains ParseIP hl a b =
        (hl, decide (b ++ [tab] ++ a ∈ hl.lines), none) := by
      simp [hostlist.Contains, hc, hr, entryLine, scan_eq_decide]
    refine ⟨?_, hC, ?_⟩
    · simp [hostlist.Add, hc, hr, entryLine]
    · rw [hC]
      exact decide_eq_true_iff
  · intro ha
    have hc := guard_of_parses ParseIP a b (Or.inl ha)
    have hr := resolve_of_parses ParseIP a b ha
    have hC : hostlist.Contains ParseIP hl a b = (hl, decide ([tab] ∈ hl.lines), none) := by
      simp [hostlist.Contains, hc, hr, entryLine, scan_eq_decide]
    refine ⟨?_, hC, ?_⟩
    · simp [hostlist.Add, hc, hr, entryLine]
    · rw [hC]
      exact decide_eq_true_iff

theorem add_contains_same_line_witness :
    (hostlist.Add dottedQuad ⟨[ascii "127.0.0.1\tlocalhost", ascii "10.0.0.1\tmyhost"], false⟩
        (ascii "myhost") (ascii "10.0.0.1") =
      (⟨[ascii "127.0.0.1\tlocalhost", ascii "10.0.0.1\tmyhost", ascii "10.0.0.1\tmyhost"],
        true⟩, none) ∧
      hostlist.Contains dottedQuad
          ⟨[ascii "127.0.0.1\tlocalhost", ascii "10.0.0.1\tmyhost"], false⟩
          (ascii "myhost") (ascii "10.0.0.1") =
        (⟨[ascii "127.0.0.1\tlocalhost", ascii "10.0.0.1\tmyhost"], false⟩, true, none)) ∧
    (hostlist.Contains dottedQuad
          ⟨[ascii "127.0.0.1\tlocalhost", ascii "10.0.0.1\tmyhost"], false⟩
          (ascii "10.0.0.1") (ascii "myhost") =
        (⟨[ascii "127.0.0.1\tlocalhost", ascii "10.0.0.1\tmyhost"], false⟩, false, none) ∧
      hostlist.Contains dottedQuad ⟨[ascii "127.0.0.1\tlocalhost", [tab]], false⟩
          (ascii "10.0.0.1") (ascii "myhost") =
        (⟨[ascii "127.0.0.1\tlocalhost", [tab]], false⟩, true, none)) ∧
    (hostlist.Contains dottedQuad
        ⟨[ascii "127.0.0.1\tlocalhost", ascii "10.0.0.1\tmyhost"], false⟩
        (ascii "myhost") (ascii "10.0.0.1")).2.1 = true :=
  ⟨⟨((add_contains_same_line dottedQuad
        ⟨[ascii "127.0.0.1\tlocalhost", ascii "10.0.0.1\tmyhost"], false⟩
        (ascii "myhost") (ascii "10.0.0.1")).1 (by decide) (by decide)).1,
      ((add_contains_same_line dottedQuad
        ⟨[ascii "127.0.0.1\tlocalhost", ascii "10.0.0.1\tmyhost"], false⟩
        (ascii "myhost") (ascii "10.0.0.1")).1 (by decide) (by decide)).2.1⟩,
    ⟨((add_contains_same_line dottedQuad
        ⟨[ascii "127.0.0.1\tlocalhost", ascii "10.0.0.1\tmyhost"], false⟩
        (ascii "10.0.0.1") (ascii "myhost")).2 (by decide)).2.1,
      ((add_contains_same_line dottedQuad ⟨[ascii "127.0.0.1\tlocalhost", [tab]], false⟩
        (ascii "10.0.0.1") (ascii "myhost")).2 (by decide)).2.1⟩,
    by decide⟩

/-! ## `Uncomment` twice -/

theorem uncommentLine_idem (thing line : Str) :
    uncommentLine thing (uncommentLine thing line) = uncommentLine thing line := by
  cases h : containsPart line thing
  · simp [uncommentLine, h]
  · have e : uncommentLine thing line = strings.TrimLeft line [hash] := by
      simp [uncommentLine, h]
    rw [e]
    cases h2 : containsPart (strings.TrimLeft line [hash]) thing
    · simp [uncommentLine, h2]
    · have e2 : strings.TrimLeft (strings.TrimLeft line [hash]) [hash] =
          strings.TrimLeft line [hash] := List.dropWhile_idempotent _ _
      simp only [uncommentLine, h2, if_true, e2]

/-- C18: `Uncomment(thing)` applied twice leaves the same store, line sequence
and dirty flag, as applied once. -/
theorem uncomment_idempotent (hl : hostlist) (thing : Str) :
    ((hl.Uncomment thing).1.Uncomment thing).1.lines = (hl.Uncomment thing).1.lines ∧
    ((hl.Uncomment thing).1.Uncomment thing).1 = (hl.Uncomment thing).1 := by
  have hlines : ((hl.Uncomment thing).1.Uncomment thing).1.lines =
      (hl.Uncomment thing).1.lines := by
    rw [Uncomment_lines, Uncomment_lines, List.map_map]
    exact List.map_inj_left.mpr (fun line _ => uncommentLine_idem thing line)
  refine ⟨hlines, ?_⟩
  have hchanged : ((hl.Uncomment thing).1.Uncomment thing).1.changed =
      (hl.Uncomment thing).1.changed := rfl
  cases hx : ((hl.Uncomment thing).1.Uncomment thing).1 with
  | mk l1 c1 =>
    cases hy : (hl.Uncomment thing).1 with
    | mk l2 c2 =>
      rw [hx, hy] at hlines hchanged
      simp only at hlines hchanged
      rw [hlines, hchanged]

/-! ## The program run -/

theorem main_del (ParseIP : Str → Option IP) (prog thing : Str) (file : Except Str Str)
    (WriteFile : Str → Option Str) :
    main ParseIP ⟨true, [prog, ascii "del", thing], file, WriteFile⟩ =
      finish ⟨true, [prog, ascii "del", thing], file, WriteFile⟩
        ((hostlist.Read ⟨[], false⟩ file).1.Remove thing).1 none := by
  have h1 : ¬ (ascii "del" = ascii "list" ∨ ascii "del" = ascii "ls") := by decide
  simp only [main, List.getD_cons_succ, List.getD_cons_zero, Bool.not_true,
    Bool.false_eq_true, if_false, List.length_cons, List.length_nil, if_neg h1, true_or, if_true]
  simp

theorem main_has_no_write (ParseIP : Str → Option IP) (env : Env)
    (h : env.Args.getD 1 [] = ascii "has" ∨ env.Args.getD 1 [] = ascii "?" ∨
      env.Args.getD 1 [] = ascii "contains") :
    (main ParseIP env).writeAttempt = none := by
  have n1 : ¬ (ascii "has" = ascii "list" ∨ ascii "has" = ascii "ls") := by decide
  have n2 : ¬ (ascii "has" = ascii "del" ∨ ascii "has" = ascii "rm" ∨ ascii "has" = ascii "-") := by
    decide
  have n3 : ¬ (ascii "has" = ascii "ucom") := by decide
  have n4 : ¬ (ascii "has" = ascii "com") := by decide
  have n5 : ¬ (ascii "has" = ascii "add" ∨ ascii "has" = ascii "+") := by decide
  have q1 : ¬ (ascii "?" = ascii "list" ∨ ascii "?" = ascii "ls") := by decide
  have q2 : ¬ (ascii "?" = ascii "del" ∨ ascii "?" = ascii "rm" ∨ ascii "?" = ascii "-") := by
    decide
  have q3 : ¬ (ascii "?" = ascii "ucom") := by decide
  have q4 : ¬ (ascii "?" = ascii "com") := by decide
  have q5 : ¬ (ascii "?" = ascii "add" ∨ ascii "?" = ascii "+") := by decide
  have c1 : ¬ (ascii "contains" = ascii "list" ∨ ascii "contains" = ascii "ls") := by decide
  have c2 : ¬ (ascii "contains" = ascii "del" ∨ ascii "contains" = ascii "rm" ∨
      ascii "contains" = ascii "-") := by decide
  have c3 : ¬ (ascii "contains" = ascii "ucom") := by decide
  have c4 : ¬ (ascii "contains" = ascii "com") := by decide
  have c5 : ¬ (ascii "contains" = ascii "add" ∨ ascii "contains" = ascii "+") := by decide
  unfold main
  by_cases hr : env.amIRoot = true
  · by_cases hn : env.Args.length ≤ 1
    · simp only [hr, Bool.not_true, Bool.false_eq_true, if_false, hn, if_true]
      rfl
    · by_cases h4 : env.Args.length ≠ 4
      · rcases h with h | h | h <;>
          simp only [hr, Bool.not_true, Bool.false_eq_true, if_false, hn, h, if_neg n1, if_neg n2,
            if_neg n3, if_neg n4, if_neg n5, if_neg q1, if_neg q2, if_neg q3, if_neg q4, if_neg q5,
            if_neg c1, if_neg c2, if_neg c3, if_neg c4, if_neg c5, true_or, or_true, if_true,
            if_pos h4] <;> rfl
      · rcases h with h | h | h <;>
          simp only [hr, Bool.not_true, Bool.false_eq_true, if_false, hn, h, if_neg n1, if_neg n2,
            if_neg n3, if_neg n4, if_neg n5, if_neg q1, if_neg q2, if_neg q3, if_neg q4, if_neg q5,
            if_neg c1, if_neg c2, if_neg c3, if_neg c4, if_neg c5, true_or, or_true, if_true,
            if_neg h4] <;> split <;> rfl
  · have hr2 : env.amIRoot = false := by simpa using hr
    simp only [hr2, Bool.not_false, if_true]
    rfl

/-- C16 (the code departs from it): when the read of the hosts file fails,
the run of `del x` is not fatal: `main` drops the error, runs `Remove` on the
empty store, hands the empty content to the write of the file and ends with
exit status 0; and whatever error that write returns, also after a good
read, the exit status is 0. -/
theorem read_error_not_fatal (ParseIP : Str → Option IP) (prog err : Str) (werr : Option Str) :
    main ParseIP ⟨true, [prog, ascii "del", ascii "x"], .error err, fun _ => werr⟩ =
      .returned none (some ([], werr)) ∧
    (main ParseIP ⟨true, [prog, ascii "del", ascii "x"], .error err, fun _ => werr⟩).exitCode
      = 0 ∧
    (main ParseIP ⟨true, [prog, ascii "del", ascii "x"], .error err,
      fun _ => werr⟩).writeAttempt = some [] ∧
    ∀ content : Str,
      (main ParseIP ⟨true, [prog, ascii "del", ascii "x"], .ok content,
        fun _ => some err⟩).exitCode = 0 := by
  have h2 : (hostlist.Remove ⟨[], false⟩ (ascii "x")).1 = ⟨[], true⟩ := by decide
  have hm : main ParseIP ⟨true, [prog, ascii "del", ascii "x"], .error err, fun _ => werr⟩ =
      .returned none (some ([], werr)) := by
    rw [main_del]
    simp only [hostlist.Read, h2, finish, if_true, hostlist.Write, hostlist.Bytes, strings.Join]
  refine ⟨hm, ?_, ?_, fun content => ?_⟩
  · rw [hm]; rfl
  · rw [hm]; rfl
  · rw [main_del]
    rfl

/-- C19: `Contains(a, b)` leaves the store, line sequence and dirty flag, as
it was, whatever it returns; and a run of `main` with one of the commands
`has`, `?`, `contains` never writes the file. -/
theorem contains_is_pure (ParseIP : Str → Option IP) (hl : hostlist) (a b : Str) :
    (hostlist.Contains ParseIP hl a b).1 = hl ∧
    ∀ env : Env,
      (env.Args.getD 1 [] = ascii "has" ∨ env.Args.getD 1 [] = ascii "?" ∨
        env.Args.getD 1 [] = ascii "contains") →
      (main ParseIP env).writeAttempt = none := by
  refine ⟨?_, fun env h => main_has_no_write ParseIP env h⟩
  unfold hostlist.Contains
  split <;> rfl

theorem contains_is_pure_witness :
    (main dottedQuad ⟨true, [ascii "hosts", ascii "has", ascii "myhost", ascii "10.0.0.1"],
      .ok (ascii "10.0.0.1\tmyhost\n"), fun _ => none⟩).writeAttempt = none ∧
    main dottedQuad ⟨true, [ascii "hosts", ascii "has", ascii "myhost", ascii "10.0.0.1"],
      .ok (ascii "10.0.0.1\tmyhost\n"), fun _ => none⟩ = .exit 0 :=
  ⟨(contains_is_pure dottedQuad ⟨[], false⟩ (ascii "myhost") (ascii "10.0.0.1")).2
      ⟨true, [ascii "hosts", ascii "has", ascii "myhost", ascii "10.0.0.1"],
        .ok (ascii "10.0.0.1\tmyhost\n"), fun _ => none⟩ (by decide),
    by decide⟩

end HostsCli
